import Mathlib

/-!
Verification development for the ORB-SLAM3 ROS2 wrapper interface
(`orb_slam3_interface.cpp`).  The C++ member functions are shallowly
embedded as pure Lean functions over an explicit interface state.
Machine doubles (timestamps, pose entries) are modelled as exact
rationals; Eigen affine transforms are modelled as a 3x3 rational
linear part plus a rational translation vector; engine objects
(`ORB_SLAM3::Map`, `ORB_SLAM3::KeyFrame`, the atlas) are modelled by
the attributes the wrapper reads from them.
-/

namespace OrbWrapper

/-- A 3-vector of exact rationals (models `Eigen::Vector3d` / `cv::Point3f`). -/
structure Vec3 where
  x : ℚ
  y : ℚ
  z : ℚ
deriving DecidableEq

/-- Component-wise vector addition. -/
def Vec3.add (a b : Vec3) : Vec3 := ⟨a.x + b.x, a.y + b.y, a.z + b.z⟩

/-- Component-wise vector negation. -/
def Vec3.neg (a : Vec3) : Vec3 := ⟨-a.x, -a.y, -a.z⟩

/-- A 3x3 matrix of exact rationals (models the linear part of `Eigen::Affine3d`). -/
structure Mat3 where
  m00 : ℚ
  m01 : ℚ
  m02 : ℚ
  m10 : ℚ
  m11 : ℚ
  m12 : ℚ
  m20 : ℚ
  m21 : ℚ
  m22 : ℚ
deriving DecidableEq

/-- The identity matrix. -/
def Mat3.one : Mat3 := ⟨1, 0, 0, 0, 1, 0, 0, 0, 1⟩

/-- Matrix multiplication. -/
def Mat3.mul (a b : Mat3) : Mat3 :=
  ⟨a.m00 * b.m00 + a.m01 * b.m10 + a.m02 * b.m20,
   a.m00 * b.m01 + a.m01 * b.m11 + a.m02 * b.m21,
   a.m00 * b.m02 + a.m01 * b.m12 + a.m02 * b.m22,
   a.m10 * b.m00 + a.m11 * b.m10 + a.m12 * b.m20,
   a.m10 * b.m01 + a.m11 * b.m11 + a.m12 * b.m21,
   a.m10 * b.m02 + a.m11 * b.m12 + a.m12 * b.m22,
   a.m20 * b.m00 + a.m21 * b.m10 + a.m22 * b.m20,
   a.m20 * b.m01 + a.m21 * b.m11 + a.m22 * b.m21,
   a.m20 * b.m02 + a.m21 * b.m12 + a.m22 * b.m22⟩

/-- Matrix-vector product. -/
def Mat3.mulVec (a : Mat3) (v : Vec3) : Vec3 :=
  ⟨a.m00 * v.x + a.m01 * v.y + a.m02 * v.z,
   a.m10 * v.x + a.m11 * v.y + a.m12 * v.z,
   a.m20 * v.x + a.m21 * v.y + a.m22 * v.z⟩

/-- Determinant, by cofactor expansion along the first row. -/
def Mat3.det (a : Mat3) : ℚ :=
  a.m00 * (a.m11 * a.m22 - a.m12 * a.m21)
  - a.m01 * (a.m10 * a.m22 - a.m12 * a.m20)
  + a.m02 * (a.m10 * a.m21 - a.m11 * a.m20)

/-- Matrix inverse by the adjugate formula, as Eigen computes it for the
linear part of an affine transform.  (Division by a zero determinant yields
the ill-defined value `0`, mirroring undefined Eigen output on a singular
input.) -/
def Mat3.inv (a : Mat3) : Mat3 :=
  let d := a.det
  ⟨(a.m11 * a.m22 - a.m12 * a.m21) / d,
   (a.m02 * a.m21 - a.m01 * a.m22) / d,
   (a.m01 * a.m12 - a.m02 * a.m11) / d,
   (a.m12 * a.m20 - a.m10 * a.m22) / d,
   (a.m00 * a.m22 - a.m02 * a.m20) / d,
   (a.m02 * a.m10 - a.m00 * a.m12) / d,
   (a.m10 * a.m21 - a.m11 * a.m20) / d,
   (a.m01 * a.m20 - a.m00 * a.m21) / d,
   (a.m00 * a.m11 - a.m01 * a.m10) / d⟩

/-- An affine transform: linear part and translation
(models `Eigen::Affine3d`; `Sophus::SE3f` poses are identified with their
affine image, the `se3ToAffine` conversion of the wrapper being a pure
representation change). -/
structure Affine3 where
  lin : Mat3
  tr : Vec3
deriving DecidableEq

/-- The identity transform. -/
def Affine3.one : Affine3 := ⟨Mat3.one, ⟨0, 0, 0⟩⟩

/-- Affine composition, `a * b` in Eigen: linear parts multiply, the
translation of `b` is mapped through the linear part of `a`. -/
def Affine3.comp (a b : Affine3) : Affine3 :=
  ⟨a.lin.mul b.lin, (a.lin.mulVec b.tr).add a.tr⟩

/-- Affine inverse as `Eigen::Affine3d::inverse()` computes it:
invert the linear part, negate and map the translation. -/
def Affine3.inverse (a : Affine3) : Affine3 :=
  let li := a.lin.inv
  ⟨li, (li.mulVec a.tr).neg⟩

/-- A quaternion of exact rationals (models `Eigen::Quaterniond`). -/
structure Quat where
  w : ℚ
  qx : ℚ
  qy : ℚ
  qz : ℚ
deriving DecidableEq

/-- Rotation matrix of a (unit) quaternion, the formula
`Eigen::Quaterniond::toRotationMatrix` uses. -/
def Quat.toMat3 (q : Quat) : Mat3 :=
  ⟨1 - 2 * (q.qy * q.qy + q.qz * q.qz),
   2 * (q.qx * q.qy - q.qz * q.w),
   2 * (q.qx * q.qz + q.qy * q.w),
   2 * (q.qx * q.qy + q.qz * q.w),
   1 - 2 * (q.qx * q.qx + q.qz * q.qz),
   2 * (q.qy * q.qz - q.qx * q.w),
   2 * (q.qx * q.qz - q.qy * q.w),
   2 * (q.qy * q.qz + q.qx * q.w),
   1 - 2 * (q.qx * q.qx + q.qy * q.qy)⟩

/-- `Eigen::Translation3d(t) * Eigen::Quaterniond(q)`: the affine transform
whose linear part is the quaternion's rotation matrix and whose translation
is `t`. -/
def translationQuat (t : Vec3) (q : Quat) : Affine3 := ⟨q.toMat3, t⟩

/-- Modelled from the spec: the `WrapperTypeConversions` collaborator
(not under `src/`) projects a local pose into the world frame by "simply
applying the affine composition referencePose . localPose"
(spec, PoseProjector).  `transformPoseWithReference(ref, local)` is thus
embedded as affine composition. -/
def transformPoseWithReference (ref localPose : Affine3) : Affine3 :=
  ref.comp localPose

/-- A keyframe, by the attributes the wrapper reads: atlas-wide identifier
`mnId`, map-local pose (`GetPose`, via `se3ToAffine`), capture timestamp
`mTimeStamp` (via `stampToSec`, an exact rational here), and the identifier
of the owning map (`GetMap`). -/
structure KeyFrame where
  mnId : ℕ
  pose : Affine3
  mTimeStamp : ℚ
  mapId : ℕ
deriving DecidableEq

/-- A map of the atlas, by the attributes the wrapper reads:
its identity, `GetInitKFid`, `GetAllKeyFrames` and `GetOriginKF`. -/
structure OrbMap where
  mapId : ℕ
  initKFid : ℕ
  keyframes : List KeyFrame
  originKF : KeyFrame
deriving DecidableEq

/-- The atlas (`mSLAM_->GetAtlas()`): the forest of maps (`GetAllMaps`)
and the identity of the current map (`GetCurrentMap`). -/
structure Atlas where
  maps : List OrbMap
  currentMapId : ℕ
deriving DecidableEq

/-- `allKFs_`: the global identifier-keyed keyframe index,
`std::map<long unsigned int, ORB_SLAM3::KeyFrame *>`, modelled as an
association list kept strictly sorted by key. -/
abbrev KFMap := List (ℕ × KeyFrame)

/-- Ordered-map insertion (`mpIdKFs[id] = kf`): keeps keys strictly
ascending, overwriting an existing binding of the same key. -/
def kfInsert : KFMap → ℕ → KeyFrame → KFMap
  | [], k, v => [(k, v)]
  | (k', v') :: rest, k, v =>
    if k < k' then (k, v) :: (k', v') :: rest
    else if k = k' then (k, v) :: rest
    else (k', v') :: kfInsert rest k v

/-- Ordered-map lookup (`std::map::operator[]` read on the keyframe index;
an absent key yields `none`, the C++ null `KeyFrame *`). -/
def kfLookup : KFMap → ℕ → Option KeyFrame
  | [], _ => none
  | (k', v') :: rest, k => if k = k' then some v' else kfLookup rest k

/-- `ORBSLAM3Interface::makeKFIdPair`: build the global id-to-keyframe
index over all keyframes of all maps of the given list. -/
def makeKFIdPair (mapsList : List OrbMap) : KFMap :=
  mapsList.foldl (fun acc pMap =>
    pMap.keyframes.foldl (fun acc2 kf => kfInsert acc2 kf.mnId kf) acc) []

/-- `mapReferencePoses_`: `std::map<ORB_SLAM3::Map *, Eigen::Affine3d>`,
modelled as an association list keyed by the map identifier (the wrapper
only ever looks entries up, never iterates the container). -/
abbrev RefTable := List (ℕ × Affine3)

/-- Lookup in the reference-pose table. -/
def refFind? : RefTable → ℕ → Option Affine3
  | [], _ => none
  | (k', v') :: rest, k => if k = k' then some v' else refFind? rest k

/-- Insert-or-overwrite in the reference-pose table
(`mapReferencePoses_[m] = v`). -/
def refSet : RefTable → ℕ → Affine3 → RefTable
  | [], k, v => [(k, v)]
  | (k', v') :: rest, k, v =>
    if k = k' then (k, v) :: rest else (k', v') :: refSet rest k v

/-- The value read from a default-constructed (uninitialized)
`Eigen::Affine3d`, as `std::map::operator[]` produces on a missing key:
an arbitrary garbage transform, fixed here as the all-zero one. -/
def uninitAffine : Affine3 := ⟨⟨0, 0, 0, 0, 0, 0, 0, 0, 0⟩, ⟨0, 0, 0⟩⟩

/-- `mapReferencePoses_[k]` read access: `operator[]` returns the stored
value, or default-inserts an uninitialized transform on a missing key and
returns that.  The possibly-extended table is returned alongside. -/
def refGet (t : RefTable) (k : ℕ) : Affine3 × RefTable :=
  match refFind? t k with
  | some v => (v, t)
  | none => (uninitAffine, refSet t k uninitAffine)

/-- The sort order `compareInitKFid` of `calculateReferencePoses`. -/
def initLE (a b : OrbMap) : Prop := a.initKFid ≤ b.initKFid

instance : DecidableRel initLE := fun a b => inferInstanceAs (Decidable (a.initKFid ≤ b.initKFid))

instance : IsTotal OrbMap initLE := ⟨fun a b => Nat.le_total a.initKFid b.initKFid⟩

instance : IsTrans OrbMap initLE := ⟨fun _ _ _ h1 h2 => Nat.le_trans h1 h2⟩

/-- `std::sort(mapsList.begin(), mapsList.end(), compareInitKFid())`:
sort the maps ascending by `GetInitKFid` (ties, on which `std::sort` is
unspecified, are kept in input order here). -/
def sortByInitKFid (l : List OrbMap) : List OrbMap := List.insertionSort initLE l

/-- The fixed world-origin offset `Translation3d(robotX, robotY, 0) *
Quaterniond(1, 0, 0, 0)` of the root branch. -/
def worldOffset (rx ry : ℚ) : Affine3 := translationQuat ⟨rx, ry, 0⟩ ⟨1, 0, 0, 0⟩

/-- The loop body of `calculateReferencePoses` over the sorted map list.
For the root map (`GetInitKFid() == 0`) the entry is the world offset
composed with the origin keyframe's pose.  For any other map the parent
keyframe `initKFid - 1` is looked up in the global index: a missing key
makes `allKFs_[id]` default-insert a null pointer which is immediately
dereferenced by `->GetPose()` - undefined behavior, modelled as `none`.
Otherwise the owning map's reference pose is read with `operator[]`
(default-inserting an uninitialized transform when absent) and composed
with the parent keyframe's pose. -/
def calcLoop (kfs : KFMap) (rx ry : ℚ) : List OrbMap → RefTable → Option RefTable
  | [], t => some t
  | m :: rest, t =>
    if m.initKFid = 0 then
      calcLoop kfs rx ry rest (refSet t m.mapId ((worldOffset rx ry).comp m.originKF.pose))
    else
      match kfLookup kfs (m.initKFid - 1) with
      | none => none
      | some kf =>
        let got := refGet t kf.mapId
        calcLoop kfs rx ry rest
          (refSet got.2 m.mapId (transformPoseWithReference got.1 kf.pose))

/-- `ORBSLAM3Interface::calculateReferencePoses`: clear the table, sort the
atlas maps by `GetInitKFid`, rebuild the global keyframe index, and resolve
one reference pose per map in sorted order.  `none` models the
null-pointer dereference on a missing parent keyframe. -/
def calculateReferencePoses (rx ry : ℚ) (atlas : Atlas) : Option (RefTable × KFMap) :=
  let mapsList := sortByInitKFid atlas.maps
  let allKFs := makeKFIdPair mapsList
  (calcLoop allKFs rx ry mapsList []).map (fun t => (t, allKFs))

/-- An incoming image message: whether `cv_bridge::toCvShare` succeeds on
it (decoding is an external collaborator; its outcome is an input of the
model) and its header timestamp in seconds. -/
structure ImageMsg where
  decodeOk : Bool
  stamp : ℚ
deriving DecidableEq

/-- An incoming inertial message: header timestamp, linear acceleration
and angular velocity. -/
structure ImuMsg where
  stamp : ℚ
  acc : Vec3
  gyr : Vec3
deriving DecidableEq

/-- An `ORB_SLAM3::IMU::Point(acc, gyr, t)` as handed to the engine. -/
structure IMUPoint where
  acc : Vec3
  gyr : Vec3
  t : ℚ
deriving DecidableEq

/-- Conversion of a buffered message into the engine's sample type, as the
drain loop performs it. -/
def imuToPoint (m : ImuMsg) : IMUPoint := ⟨m.acc, m.gyr, m.stamp⟩

/-- The externally-owned SLAM engine's observable behavior during one
tracking call: the atlas handle `GetAtlas` returns, the pose `TrackRGBD`
returns, `GetTrackingState`, and `GetLoopClosing()->mergeDetected()`. -/
structure EngineOut where
  atlas : Atlas
  tcw : Affine3
  trackingState : ℕ
  mergeFlag : Bool
deriving DecidableEq

/-- The mutable members of `ORBSLAM3Interface` the specified operations
read or write. -/
structure InterfaceState where
  orbAtlas : Atlas
  mapReferencePoses : RefTable
  allKFs : KFMap
  latestTrackedPose : Affine3
  hasTracked : Bool
  imuBuf : List ImuMsg
  robotX : ℚ
  robotY : ℚ
  globalFrame : String
  odomFrame : String
deriving DecidableEq

/-- `ORBSLAM3Interface::handleIMU`: push the message onto the FIFO
inertial buffer. -/
def handleIMU (st : InterfaceState) (m : ImuMsg) : InterfaceState :=
  { st with imuBuf := st.imuBuf ++ [m] }

/-- `ORBSLAM3Interface::correctTrackedPose`: project the engine pose with
the current map's reference pose (an `operator[]` read, default-inserting
an uninitialized transform if the current map is absent from the table)
and store it as the latest tracked pose. -/
def correctTrackedPose (st : InterfaceState) (s : Affine3) : InterfaceState :=
  let got := refGet st.mapReferencePoses st.orbAtlas.currentMapId
  { st with
    latestTrackedPose := transformPoseWithReference got.1 s,
    mapReferencePoses := got.2 }

/-- The recompute performed on a `TRACKING_OK` frame:
`calculateReferencePoses()` writes the reference-pose table and the global
keyframe index into the interface state (the other members are untouched).
`none` models the crash on a missing parent keyframe. -/
def applyCalc (st : InterfaceState) : Option InterfaceState :=
  (calculateReferencePoses st.robotX st.robotY st.orbAtlas).map
    (fun p => { st with mapReferencePoses := p.1, allKFs := p.2 })

/-- The drain loop of `trackRGBDi`: pop and collect buffered samples while
the front timestamp is at most the cutoff.  Returns the collected engine
samples and the remaining buffer. -/
def drainIMU : List ImuMsg → ℚ → List IMUPoint × List ImuMsg
  | [], _ => ([], [])
  | m :: rest, cut =>
    if m.stamp ≤ cut then
      let p := drainIMU rest cut
      (imuToPoint m :: p.1, p.2)
    else ([], m :: rest)

/-- The observable outcome of one tracking call: the returned boolean,
whether the engine's `TrackRGBD` was invoked at all, the inertial samples
removed from the buffer by the call, the inertial samples actually passed
to the engine, and the interface state after the call. -/
structure TrackOutcome where
  ret : Bool
  engineInvoked : Bool
  imuRemoved : List IMUPoint
  imuToEngine : List IMUPoint
  st : InterfaceState
deriving DecidableEq

/-- `ORBSLAM3Interface::trackRGBDi` (inertial tracking).  Step order as in
the source: refresh the cached atlas handle from the engine, decode both
images (failure returns `false` with no further effect), drain the
inertial buffer up to the earlier of the two image timestamps, and invoke
the engine only if the buffer is still non-empty afterwards.  A detected
merge discards the result; state `2` (`TRACKING_OK`) recomputes the
reference poses, projects and stores the tracked pose, sets `hasTracked_`;
any other state returns `false`.  `none` models the crash inside
`calculateReferencePoses`. -/
def trackRGBDi (st : InterfaceState) (msgRGB msgD : ImageMsg) (eng : EngineOut) :
    Option TrackOutcome :=
  let st0 := { st with orbAtlas := eng.atlas }
  if !msgRGB.decodeOk then some ⟨false, false, [], [], st0⟩
  else if !msgD.decodeOk then some ⟨false, false, [], [], st0⟩
  else
    let cut := min msgRGB.stamp msgD.stamp
    let drained := drainIMU st0.imuBuf cut
    let st1 := { st0 with imuBuf := drained.2 }
    if 0 < drained.2.length then
      if eng.mergeFlag then some ⟨false, true, drained.1, drained.1, st1⟩
      else if eng.trackingState = 2 then
        match applyCalc st1 with
        | none => none
        | some st2 =>
          let st3 := correctTrackedPose st2 eng.tcw
          some ⟨true, true, drained.1, drained.1, { st3 with hasTracked := true }⟩
      else some ⟨false, true, drained.1, drained.1, st1⟩
    else some ⟨false, false, drained.1, [], st1⟩

/-- `ORBSLAM3Interface::trackRGBD` (non-inertial tracking).  Decode both
images (failure returns `false` with no state change), invoke the engine,
gate on the merge flag, and on state `2` recompute the reference poses and
store the projected tracked pose.  Note the source does not touch
`hasTracked_` on this path. -/
def trackRGBD (st : InterfaceState) (msgRGB msgD : ImageMsg) (eng : EngineOut) :
    Option TrackOutcome :=
  if !msgRGB.decodeOk then some ⟨false, false, [], [], st⟩
  else if !msgD.decodeOk then some ⟨false, false, [], [], st⟩
  else
    if eng.mergeFlag then some ⟨false, true, [], [], st⟩
    else if eng.trackingState = 2 then
      match applyCalc st with
      | none => none
      | some st2 => some ⟨true, true, [], [], correctTrackedPose st2 eng.tcw⟩
    else some ⟨false, true, [], [], st⟩

/-- The latest odometry message, by the fields `getMapToOdomTF` reads:
position, orientation quaternion, header timestamp. -/
structure OdomMsg where
  px : ℚ
  py : ℚ
  pz : ℚ
  qw : ℚ
  qxx : ℚ
  qyy : ℚ
  qzz : ℚ
  stamp : ℚ
deriving DecidableEq

/-- The transform written into the output argument of `getMapToOdomTF`:
timestamp, the two frame labels, and the transform itself (the
`tf2::toMsg` serialization into translation and quaternion fields being a
pure representation change). -/
structure TransformStamped where
  stamp : ℚ
  frameId : String
  childFrameId : String
  transform : Affine3
deriving DecidableEq

/-- `ORBSLAM3Interface::getMapToOdomTF`: if `hasTracked_` the output
transform is the latest tracked pose composed with the inverse of the
odometry pose, stamped half a second after the odometry sample and
labeled global frame over odometry frame; otherwise the output argument
is never written (`none`). -/
def getMapToOdomTF (st : InterfaceState) (msgOdom : OdomMsg) : Option TransformStamped :=
  if st.hasTracked then
    let latestOdomTransform :=
      translationQuat ⟨msgOdom.px, msgOdom.py, msgOdom.pz⟩
        ⟨msgOdom.qw, msgOdom.qxx, msgOdom.qyy, msgOdom.qzz⟩
    let tfMapOdom := st.latestTrackedPose.comp latestOdomTransform.inverse
    some ⟨msgOdom.stamp + 1/2, st.globalFrame, st.odomFrame, tfMapOdom⟩
  else none

/-- One stamped pose of the published pose graph. -/
structure PoseStamped where
  pose : Affine3
  frameId : String
  stamp : ℚ
deriving DecidableEq

/-- `slam_msgs::msg::MapGraph`: parallel pose and identifier sequences. -/
structure MapGraph where
  poses : List PoseStamped
  posesId : List ℕ
deriving DecidableEq

/-- The `!currentMapKFOnly` loop of `getOptimizedPoseGraph`: iterate the
identifier-keyed index in its (key-sorted) order, project each keyframe
through its owning map's reference pose (an `operator[]` read that
default-inserts on a miss, so the table is threaded through), and append
pose and identifier. -/
def poseGraphAllLoop (gframe : String) : RefTable → KFMap →
    List PoseStamped × List ℕ × RefTable
  | t, [] => ([], [], t)
  | t, e :: rest =>
    let got := refGet t e.2.mapId
    let ps : PoseStamped :=
      ⟨transformPoseWithReference got.1 e.2.pose, gframe, e.2.mTimeStamp⟩
    let r := poseGraphAllLoop gframe got.2 rest
    (ps :: r.1, e.2.mnId :: r.2.1, r.2.2)

/-- Modelled from the spec: `orbAtlas_->GetAllKeyFrames()` (engine code,
not under `src/`) yields the live current map's keyframes
(spec, MapSnapshotBuilder: "For CURRENT_MAP_ONLY, iterate only the live
current map's keyframes"). -/
def atlasAllKeyFrames (atlas : Atlas) : List KeyFrame :=
  match atlas.maps.find? (fun m => m.mapId = atlas.currentMapId) with
  | some m => m.keyframes
  | none => []

/-- The `currentMapKFOnly` loop of `getOptimizedPoseGraph`: same
projection over the current map's keyframes in engine-reported order. -/
def poseGraphCurrLoop (gframe : String) : RefTable → List KeyFrame →
    List PoseStamped × List ℕ × RefTable
  | t, [] => ([], [], t)
  | t, kf :: rest =>
    let got := refGet t kf.mapId
    let ps : PoseStamped :=
      ⟨transformPoseWithReference got.1 kf.pose, gframe, kf.mTimeStamp⟩
    let r := poseGraphCurrLoop gframe got.2 rest
    (ps :: r.1, kf.mnId :: r.2.1, r.2.2)

/-- `ORBSLAM3Interface::getOptimizedPoseGraph`: the emitted graph together
with the (possibly `operator[]`-extended) reference-pose table. -/
def getOptimizedPoseGraph (st : InterfaceState) (currentMapKFOnly : Bool) :
    MapGraph × RefTable :=
  if !currentMapKFOnly then
    let r := poseGraphAllLoop st.globalFrame st.mapReferencePoses st.allKFs
    (⟨r.1, r.2.1⟩, r.2.2)
  else
    let r := poseGraphCurrLoop st.globalFrame st.mapReferencePoses
      (atlasAllKeyFrames st.orbAtlas)
    (⟨r.1, r.2.1⟩, r.2.2)

/-- One record per inertial tracking call of a run: the drain cutoff
(the earlier of the two image timestamps), the samples removed from the
buffer, and the samples passed to the engine. -/
structure FrameRec where
  cut : ℚ
  removed : List IMUPoint
  passed : List IMUPoint
deriving DecidableEq

/-- An event of an inertial-mode run: an IMU arrival (`handleIMU`) or a
frame pair handed to `trackRGBDi` together with the engine's behavior on
it. -/
inductive RunEvent where
  | imu (m : ImuMsg)
  | frame (rgb d : ImageMsg) (eng : EngineOut)
deriving DecidableEq

/-- Execute a sequence of events against the interface, recording one
`FrameRec` per tracking call.  `none` propagates a crash. -/
def runEvents (st : InterfaceState) : List RunEvent → Option (InterfaceState × List FrameRec)
  | [] => some (st, [])
  | RunEvent.imu m :: evs => runEvents (handleIMU st m) evs
  | RunEvent.frame rgb d eng :: evs =>
    match trackRGBDi st rgb d eng with
    | none => none
    | some o =>
      (runEvents o.st evs).map
        (fun r => (r.1, ⟨min rgb.stamp d.stamp, o.imuRemoved, o.imuToEngine⟩ :: r.2))

/-- The IMU arrivals of an event list, in order. -/
def arrivals : List RunEvent → List ImuMsg
  | [] => []
  | RunEvent.imu m :: evs => m :: arrivals evs
  | RunEvent.frame _ _ _ :: evs => arrivals evs

/-- Concatenation of the per-frame removed-sample lists of a run. -/
def joinRemoved (recs : List FrameRec) : List IMUPoint :=
  (recs.map FrameRec.removed).flatten

/-! Concrete instances used by witnesses and counterexamples. -/

/-- The zero vector. -/
def vZero : Vec3 := ⟨0, 0, 0⟩

/-- Origin keyframe of the root map: id 0, identity pose, owned by map 0. -/
def kf0 : KeyFrame := ⟨0, Affine3.one, 0, 0⟩

/-- Keyframe id 4 of the root map, with a non-trivial pose. -/
def kf4 : KeyFrame := ⟨4, ⟨Mat3.one, ⟨1, 2, 3⟩⟩, 0, 0⟩

/-- Keyframe id 5, first keyframe of the spawned map 1. -/
def kf5 : KeyFrame := ⟨5, ⟨Mat3.one, ⟨10, 0, 0⟩⟩, 0, 1⟩

/-- A single-keyframe root map. -/
def mapA0 : OrbMap := ⟨0, 0, [kf0], kf0⟩

/-- A root map holding keyframes 0 and 4. -/
def mapA : OrbMap := ⟨0, 0, [kf0, kf4], kf0⟩

/-- A map spawned at keyframe 5 from the root's keyframe 4. -/
def mapB : OrbMap := ⟨1, 5, [kf5], kf5⟩

/-- A single-root-map forest. -/
def atlasA : Atlas := ⟨[mapA0], 0⟩

/-- The two-map chaining forest of the spec's test property. -/
def atlasAB : Atlas := ⟨[mapA, mapB], 1⟩

/-- An inconsistent forest: map 1 references parent keyframe 4, which no
map of the forest holds. -/
def atlasBad : Atlas := ⟨[mapA0, mapB], 1⟩

/-- A forest handle distinguishable from `atlasA`. -/
def atlasOther : Atlas := ⟨[mapA0], 7⟩

/-- A quiescent interface state over the single-map forest. -/
def baseState : InterfaceState :=
  ⟨atlasA, [], [], Affine3.one, false, [], 0, 0, "map", "odom"⟩

/-- An image message that decodes, stamped at second 1. -/
def rgbOk : ImageMsg := ⟨true, 1⟩

/-- An image message whose decode fails. -/
def rgbBad : ImageMsg := ⟨false, 1⟩

/-- An image message that decodes, stamped at second 16. -/
def imgSync : ImageMsg := ⟨true, 16⟩

/-- Engine behavior: unchanged atlas, identity pose, `TRACKING_OK`, no merge. -/
def engTrackOK : EngineOut := ⟨atlasA, Affine3.one, 2, false⟩

/-- Engine behavior: tracking lost, no merge. -/
def engLost : EngineOut := ⟨atlasA, Affine3.one, 3, false⟩

/-- Engine behavior: merge in progress while reporting `TRACKING_OK`. -/
def engMerge : EngineOut := ⟨atlasA, Affine3.one, 2, true⟩

/-- Engine behavior returning a fresh atlas handle. -/
def engOther : EngineOut := ⟨atlasOther, Affine3.one, 2, false⟩

/-- An inertial sample at second 1. -/
def imuEarly : ImuMsg := ⟨1, vZero, vZero⟩

/-- An inertial sample at second 2. -/
def imuLate : ImuMsg := ⟨2, vZero, vZero⟩

/-- `baseState` with one future inertial sample buffered. -/
def bufState : InterfaceState := { baseState with imuBuf := [imuLate] }

/-- `baseState` with one old inertial sample buffered. -/
def c2State : InterfaceState := { baseState with imuBuf := [imuEarly] }

/-- The returned boolean of a tracking call (`false` covers the crash
outcome, which never returns). -/
def retOf : Option TrackOutcome → Bool
  | some o => o.ret
  | none => false

/-- Whether the engine's tracking step was invoked by the call. -/
def invokedOf : Option TrackOutcome → Bool
  | some o => o.engineInvoked
  | none => false

/-- The `hasTracked` flag after a tracking call. -/
def hasTrackedOf : Option TrackOutcome → Bool
  | some o => o.st.hasTracked
  | none => false

/-- The outcome of an inertial call whose drain empties the buffer: the
sample is removed yet never handed to the engine. -/
def c2Outcome : TrackOutcome := ⟨false, false, [⟨vZero, vZero, 1⟩], [], baseState⟩

/-- State after the decode-failure counterexample call: only the cached
atlas handle differs from `baseState`. -/
def c5State : InterfaceState := { baseState with orbAtlas := atlasOther }

/-- A state that has tracked at least once. -/
def trackedState : InterfaceState := { baseState with hasTracked := true }

/-- A concrete odometry sample at second 10, identity pose. -/
def odomDemo : OdomMsg := ⟨0, 0, 0, 1, 0, 0, 0, 10⟩

/-- `baseState` after one reference-pose recompute. -/
def calcState : InterfaceState :=
  { baseState with mapReferencePoses := [(0, Affine3.one)], allKFs := [(0, kf0)] }

/-- A forest listed child-first, so that index insertion order differs
from identifier order. -/
def c10Maps : List OrbMap := [mapB, mapA]

/-- A state whose historical index was built over `c10Maps`. -/
def c10State : InterfaceState := { baseState with allKFs := makeKFIdPair c10Maps }

/-- Demo run: two inertial arrivals, then one frame at second 1 whose
tracking is lost. -/
def demoEvents : List RunEvent :=
  [RunEvent.imu imuEarly, RunEvent.imu imuLate, RunEvent.frame rgbOk rgbOk engLost]

/-- Final state of the demo run. -/
def c2RunState : InterfaceState := { baseState with imuBuf := [imuLate] }

/-- Frame records of the demo run. -/
def c2Recs : List FrameRec := [⟨1, [⟨vZero, vZero, 1⟩], [⟨vZero, vZero, 1⟩]⟩]

/-- The buffered samples of the spec's draining example (scaled to integer
seconds 10, 12, 15, 20). -/
def c7Buf : List ImuMsg :=
  [⟨10, vZero, vZero⟩, ⟨12, vZero, vZero⟩, ⟨15, vZero, vZero⟩, ⟨20, vZero, vZero⟩]

/-- `baseState` holding the draining-example buffer. -/
def c7State : InterfaceState := { baseState with imuBuf := c7Buf }

/-- The outcome of the draining example: the three old samples are
consumed in order and passed on, the future sample stays buffered. -/
def c7Outcome : TrackOutcome :=
  ⟨false, true,
   [⟨vZero, vZero, 10⟩, ⟨vZero, vZero, 12⟩, ⟨vZero, vZero, 15⟩],
   [⟨vZero, vZero, 10⟩, ⟨vZero, vZero, 12⟩, ⟨vZero, vZero, 15⟩],
   { baseState with imuBuf := [⟨20, vZero, vZero⟩] }⟩

/-! Claim theorems. -/

/-- Claim C1 (code_bug evidence): on a `TRACKING_OK`, merge-free frame the
non-inertial `trackRGBD` recomputes the reference poses, stores the
projected tracked pose and returns success, yet leaves `hasTracked` at
`false` - the source omits the `hasTracked_ = true` assignment that the
otherwise parallel inertial path `trackRGBDi` performs (shown for
contrast on the same engine behavior). -/
theorem c1_trackRGBD_hasTracked_not_set :
    baseState.hasTracked = false ∧
    retOf (trackRGBD baseState rgbOk rgbOk engTrackOK) = true ∧
    invokedOf (trackRGBD baseState rgbOk rgbOk engTrackOK) = true ∧
    hasTrackedOf (trackRGBD baseState rgbOk rgbOk engTrackOK) = false ∧
    retOf (trackRGBDi bufState rgbOk rgbOk engTrackOK) = true ∧
    hasTrackedOf (trackRGBDi bufState rgbOk rgbOk engTrackOK) = true := by decide

/-- Claim C3 (code_bug evidence): on a forest in which map 1 references
parent keyframe 4 that no map holds, the resolution pass does not skip
the map - `allKFs_[initKFid - 1]` default-inserts a null keyframe pointer
and `->GetPose()` dereferences it, modelled as the crash outcome `none`;
with the parent keyframe present the same pass completes. -/
theorem c3_missing_parent_crashes :
    calculateReferencePoses 0 0 atlasBad = none ∧
    (calculateReferencePoses 0 0 atlasAB).isSome = true := by decide

/-- Claim C5 counterexample: a `trackRGBDi` call whose image decode fails
still replaces the cached atlas handle (it is refreshed from the engine
before decoding), so the call is not free of state change. -/
theorem c5_cx_atlas_handle_changes :
    trackRGBDi baseState rgbBad rgbOk engOther = some ⟨false, false, [], [], c5State⟩ ∧
    c5State.orbAtlas ≠ baseState.orbAtlas := by decide

/-- Claim C5 (amended): on decode failure both tracking calls return
failure and leave the inertial buffer, reference-pose table, keyframe
index, tracked pose and `hasTracked` flag unchanged; `trackRGBD` changes
nothing at all, while `trackRGBDi` has already refreshed the cached atlas
handle from the engine. -/
theorem c5_decode_failure_state (st : InterfaceState) (rgb d : ImageMsg) (eng : EngineOut)
    (h : rgb.decodeOk = false ∨ d.decodeOk = false) :
    trackRGBD st rgb d eng = some ⟨false, false, [], [], st⟩ ∧
    trackRGBDi st rgb d eng = some ⟨false, false, [], [], { st with orbAtlas := eng.atlas }⟩ := by
  rcases h with h | h
  · constructor <;> simp [trackRGBD, trackRGBDi, h]
  · by_cases h2 : rgb.decodeOk <;> constructor <;> simp [trackRGBD, trackRGBDi, h, h2]

/-- Witness for C5: a concrete decode failure, evaluated. -/
theorem c5_decode_failure_state_witness :
    trackRGBD baseState rgbBad rgbOk engOther = some ⟨false, false, [], [], baseState⟩ ∧
    trackRGBDi baseState rgbBad rgbOk engOther =
      some ⟨false, false, [], [], { baseState with orbAtlas := engOther.atlas }⟩ :=
  c5_decode_failure_state baseState rgbBad rgbOk engOther (Or.inl (by decide))

/-- Claim C6: when the engine reports a merge in progress, both tracking
calls return failure and leave the tracked pose, the reference-pose table
and the `hasTracked` flag exactly as they were, whatever the tracking
state reported alongside. -/
theorem c6_merge_gating (st : InterfaceState) (rgb d : ImageMsg) (eng : EngineOut)
    (h1 : rgb.decodeOk = true) (h2 : d.decodeOk = true) (hm : eng.mergeFlag = true)
    (hbuf : (drainIMU st.imuBuf (min rgb.stamp d.stamp)).2 ≠ []) :
    trackRGBD st rgb d eng = some ⟨false, true, [], [], st⟩ ∧
    ∃ o, trackRGBDi st rgb d eng = some o ∧ o.ret = false ∧
      o.st.latestTrackedPose = st.latestTrackedPose ∧
      o.st.mapReferencePoses = st.mapReferencePoses ∧
      o.st.hasTracked = st.hasTracked := by
  constructor
  · simp [trackRGBD, h1, h2, hm]
  · refine ⟨⟨false, true, (drainIMU st.imuBuf (min rgb.stamp d.stamp)).1,
      (drainIMU st.imuBuf (min rgb.stamp d.stamp)).1,
      { st with orbAtlas := eng.atlas,
                imuBuf := (drainIMU st.imuBuf (min rgb.stamp d.stamp)).2 }⟩,
      ?_, rfl, rfl, rfl, rfl⟩
    simp [trackRGBDi, h1, h2, hm, List.length_pos.mpr hbuf]

/-- Witness for C6: a concrete merge-gated frame, evaluated. -/
theorem c6_merge_gating_witness :
    trackRGBD bufState rgbOk rgbOk engMerge = some ⟨false, true, [], [], bufState⟩ ∧
    ∃ o, trackRGBDi bufState rgbOk rgbOk engMerge = some o ∧ o.ret = false ∧
      o.st.latestTrackedPose = bufState.latestTrackedPose ∧
      o.st.mapReferencePoses = bufState.mapReferencePoses ∧
      o.st.hasTracked = bufState.hasTracked :=
  c6_merge_gating bufState rgbOk rgbOk engMerge rfl rfl rfl (by decide)

/-- Claim C8: the map-to-odom bridge produces nothing before the first
successful tracking step; afterwards it produces the latest tracked pose
composed with the inverse odometry pose, stamped half a second after the
odometry sample and labeled with the global and odometry frames, and its
output is a function of the latest tracked pose alone - never of earlier
outputs. -/
theorem c8_mapToOdom (st : InterfaceState) (msgOdom : OdomMsg) :
    (st.hasTracked = false → getMapToOdomTF st msgOdom = none) ∧
    (st.hasTracked = true →
      getMapToOdomTF st msgOdom =
        some ⟨msgOdom.stamp + 1/2, st.globalFrame, st.odomFrame,
          st.latestTrackedPose.comp
            (translationQuat ⟨msgOdom.px, msgOdom.py, msgOdom.pz⟩
              ⟨msgOdom.qw, msgOdom.qxx, msgOdom.qyy, msgOdom.qzz⟩).inverse⟩) ∧
    (∀ st' : InterfaceState, st'.hasTracked = st.hasTracked →
      st'.latestTrackedPose = st.latestTrackedPose →
      st'.globalFrame = st.globalFrame → st'.odomFrame = st.odomFrame →
      getMapToOdomTF st' msgOdom = getMapToOdomTF st msgOdom) := by
  refine ⟨fun h => by simp [getMapToOdomTF, h], fun h => by simp [getMapToOdomTF, h], ?_⟩
  intro st' h1 h2 h3 h4
  simp [getMapToOdomTF, h1, h2, h3, h4]

/-- Witness for C8: evaluated on a concrete untracked and a concrete
tracked state. -/
theorem c8_mapToOdom_witness :
    getMapToOdomTF baseState odomDemo = none ∧
    getMapToOdomTF trackedState odomDemo =
      some ⟨odomDemo.stamp + 1/2, trackedState.globalFrame, trackedState.odomFrame,
        trackedState.latestTrackedPose.comp
          (translationQuat ⟨odomDemo.px, odomDemo.py, odomDemo.pz⟩
            ⟨odomDemo.qw, odomDemo.qxx, odomDemo.qyy, odomDemo.qzz⟩).inverse⟩ :=
  ⟨(c8_mapToOdom baseState odomDemo).1 rfl, (c8_mapToOdom trackedState odomDemo).2.1 rfl⟩

/-- Claim C9: the reference-pose recompute clears and rebuilds its outputs
from the forest alone, so running it a second time on the unchanged state
reproduces the identical reference-pose table and keyframe index. -/
theorem c9_resolution_idempotent (st st' : InterfaceState)
    (h : applyCalc st = some st') : applyCalc st' = some st' := by
  unfold applyCalc at h ⊢
  rcases hc : calculateReferencePoses st.robotX st.robotY st.orbAtlas with _ | p
  · rw [hc] at h; exact absurd h (by simp)
  · rw [hc] at h
    simp only [Option.map_some'] at h
    injection h with h'
    subst h'
    change (calculateReferencePoses st.robotX st.robotY st.orbAtlas).map _ = _
    rw [hc]
    rfl

/-- Witness for C9: one recompute from the quiescent demo state, then the
theorem applied to it. -/
theorem c9_resolution_idempotent_witness : applyCalc calcState = some calcState :=
  c9_resolution_idempotent baseState calcState (by
    norm_num [applyCalc, calculateReferencePoses, sortByInitKFid, makeKFIdPair, calcLoop,
      refSet, refFind?, refGet, kfInsert, kfLookup, worldOffset, translationQuat,
      Quat.toMat3, transformPoseWithReference, Affine3.comp, Affine3.one, Mat3.mul,
      Mat3.mulVec, Mat3.one, Vec3.add, baseState, calcState, atlasA, mapA0, kf0,
      List.insertionSort, List.orderedInsert])

/-- The drain loop is exactly take-while / drop-while on the timestamp
cutoff predicate. -/
theorem drainIMU_eq (buf : List ImuMsg) (cut : ℚ) :
    drainIMU buf cut =
      ((buf.takeWhile (fun m => m.stamp ≤ cut)).map imuToPoint,
       buf.dropWhile (fun m => m.stamp ≤ cut)) := by
  induction buf with
  | nil => rfl
  | cons m rest ih =>
    by_cases h : m.stamp ≤ cut
    · simp [drainIMU, h, ih]
    · simp [drainIMU, h]

/-- `correctTrackedPose` does not touch the inertial buffer. -/
theorem correctTrackedPose_imuBuf (st : InterfaceState) (s : Affine3) :
    (correctTrackedPose st s).imuBuf = st.imuBuf := rfl

/-- The reference-pose recompute does not touch the inertial buffer, the
tracked pose, the `hasTracked` flag, the atlas handle or the
configuration. -/
theorem applyCalc_preserve (st st' : InterfaceState) (h : applyCalc st = some st') :
    st'.imuBuf = st.imuBuf ∧ st'.latestTrackedPose = st.latestTrackedPose ∧
    st'.hasTracked = st.hasTracked ∧ st'.orbAtlas = st.orbAtlas := by
  unfold applyCalc at h
  rcases hc : calculateReferencePoses st.robotX st.robotY st.orbAtlas with _ | p
  · rw [hc] at h; exact absurd h (by simp)
  · rw [hc] at h
    simp only [Option.map_some'] at h
    injection h with h'
    subst h'
    exact ⟨rfl, rfl, rfl, rfl⟩

/-- Branch analysis of `trackRGBDi` after a successful decode: whatever
the engine reports, the call removes exactly the maximal old-enough
prefix of the buffer, leaves the rest, and passes to the engine either
exactly what it removed (when the engine is invoked) or nothing (when the
frame is skipped). -/
theorem trackRGBDi_drain_cases (st : InterfaceState) (rgb d : ImageMsg) (eng : EngineOut)
    (h1 : rgb.decodeOk = true) (h2 : d.decodeOk = true)
    (o : TrackOutcome) (h : trackRGBDi st rgb d eng = some o) :
    o.imuRemoved =
      (st.imuBuf.takeWhile (fun m => m.stamp ≤ min rgb.stamp d.stamp)).map imuToPoint ∧
    o.st.imuBuf = st.imuBuf.dropWhile (fun m => m.stamp ≤ min rgb.stamp d.stamp) ∧
    ((o.engineInvoked = true ∧ o.imuToEngine = o.imuRemoved) ∨
     (o.engineInvoked = false ∧ o.imuToEngine = [])) := by
  have hd := drainIMU_eq st.imuBuf (min rgb.stamp d.stamp)
  by_cases hb : 0 < (drainIMU st.imuBuf (min rgb.stamp d.stamp)).2.length
  · by_cases hm : eng.mergeFlag
    · simp only [trackRGBDi, h1, h2, hm, hb, Bool.not_true, Bool.false_eq_true,
        if_false, if_true, ite_true, ite_false, Option.some.injEq] at h
      subst h
      rw [hd]
      exact ⟨rfl, rfl, Or.inl ⟨rfl, rfl⟩⟩
    · by_cases hs : eng.trackingState = 2
      · simp only [trackRGBDi, h1, h2, hm, hs, hb, Bool.not_true, Bool.false_eq_true,
          if_false, if_true, ite_true, ite_false] at h
        split at h
        · exact absurd h (by simp)
        · rename_i st2 hc
          simp only [Option.some.injEq] at h
          subst h
          have hp := applyCalc_preserve _ _ hc
          refine ⟨by rw [hd], ?_, Or.inl ⟨rfl, rfl⟩⟩
          show (correctTrackedPose st2 eng.tcw).imuBuf = _
          rw [correctTrackedPose_imuBuf, hp.1]
          show (drainIMU st.imuBuf (min rgb.stamp d.stamp)).2 = _
          rw [hd]
      · simp only [trackRGBDi, h1, h2, hm, hs, hb, Bool.not_true, Bool.false_eq_true,
          if_false, if_true, ite_true, ite_false, Option.some.injEq] at h
        subst h
        rw [hd]
        exact ⟨rfl, rfl, Or.inl ⟨rfl, rfl⟩⟩
  · simp only [trackRGBDi, h1, h2, hb, Bool.not_true, Bool.false_eq_true,
      if_false, if_true, ite_true, ite_false, Option.some.injEq] at h
    subst h
    rw [hd]
    exact ⟨rfl, rfl, Or.inr ⟨rfl, rfl⟩⟩

/-- Claim C7: after a successful decode, the inertial drain of
`trackRGBDi` removes exactly the maximal buffer prefix of samples stamped
at or before the earlier of the two image timestamps, in buffer order,
and leaves every later-stamped sample buffered. -/
theorem c7_drain_exact_prefix (st : InterfaceState) (rgb d : ImageMsg) (eng : EngineOut)
    (h1 : rgb.decodeOk = true) (h2 : d.decodeOk = true)
    (o : TrackOutcome) (h : trackRGBDi st rgb d eng = some o) :
    o.imuRemoved =
      (st.imuBuf.takeWhile (fun m => m.stamp ≤ min rgb.stamp d.stamp)).map imuToPoint ∧
    o.st.imuBuf = st.imuBuf.dropWhile (fun m => m.stamp ≤ min rgb.stamp d.stamp) := by
  have hc := trackRGBDi_drain_cases st rgb d eng h1 h2 o h
  exact ⟨hc.1, hc.2.1⟩

/-- Witness for C7: the spec's draining example (scaled to integer
seconds): buffered stamps 10, 12, 15, 20 and a frame pair at 16 consume
exactly 10, 12, 15 in order and leave 20 buffered. -/
theorem c7_drain_exact_prefix_witness :
    c7Outcome.imuRemoved =
      (c7State.imuBuf.takeWhile
        (fun m => m.stamp ≤ min imgSync.stamp imgSync.stamp)).map imuToPoint ∧
    c7Outcome.st.imuBuf =
      c7State.imuBuf.dropWhile (fun m => m.stamp ≤ min imgSync.stamp imgSync.stamp) :=
  c7_drain_exact_prefix c7State imgSync imgSync engLost rfl rfl c7Outcome (by decide)

/-- Per-call consumption facts for `trackRGBDi`, decode outcome arbitrary:
removed samples are a prefix of the buffer (concatenation restores it),
every removed sample is stamped at or before the frame cutoff, and the
engine receives exactly the removed samples or nothing. -/
theorem trackRGBDi_consumes (st : InterfaceState) (rgb d : ImageMsg) (eng : EngineOut)
    (o : TrackOutcome) (h : trackRGBDi st rgb d eng = some o) :
    o.imuRemoved ++ o.st.imuBuf.map imuToPoint = st.imuBuf.map imuToPoint ∧
    (∀ p ∈ o.imuRemoved, p.t ≤ min rgb.stamp d.stamp) ∧
    ((o.engineInvoked = true ∧ o.imuToEngine = o.imuRemoved) ∨
     (o.engineInvoked = false ∧ o.imuToEngine = [])) := by
  by_cases h1 : rgb.decodeOk
  · by_cases h2 : d.decodeOk
    · have hc := trackRGBDi_drain_cases st rgb d eng h1 h2 o h
      refine ⟨?_, ?_, hc.2.2⟩
      · rw [hc.1, hc.2.1, ← List.map_append, List.takeWhile_append_dropWhile]
      · intro p hp
        rw [hc.1] at hp
        obtain ⟨m, hm, rfl⟩ := List.mem_map.mp hp
        have hq := List.mem_takeWhile_imp hm
        exact of_decide_eq_true hq
    · have h2' : d.decodeOk = false := by revert h2; cases d.decodeOk <;> simp
      simp only [trackRGBDi, h1, h2', Bool.not_true, Bool.not_false, Bool.false_eq_true,
        if_false, if_true, ite_true, ite_false, Option.some.injEq] at h
      subst h
      refine ⟨by simp, ?_, Or.inr ⟨rfl, rfl⟩⟩
      intro p hp
      simp at hp
  · have h1' : rgb.decodeOk = false := by revert h1; cases rgb.decodeOk <;> simp
    simp only [trackRGBDi, h1', Bool.not_false, if_true, ite_true,
      Option.some.injEq] at h
    subst h
    refine ⟨by simp, ?_, Or.inr ⟨rfl, rfl⟩⟩
    intro p hp
    simp at hp

/-- Claim C2 counterexample: a buffered sample can be removed without ever
being passed to the engine.  With one old sample buffered and a frame
whose drain empties the buffer, `trackRGBDi` removes the sample, skips
the engine call, and the sample is gone. -/
theorem c2_cx_removed_sample_never_passed :
    trackRGBDi c2State rgbOk rgbOk engLost = some c2Outcome ∧
    c2Outcome.imuRemoved = [⟨vZero, vZero, 1⟩] ∧
    c2Outcome.imuToEngine = [] ∧
    c2Outcome.engineInvoked = false ∧
    c2Outcome.st.imuBuf = [] := by decide

/-- Claim C2 (amended): across any sequence of inertial-mode calls, the
per-frame removed samples concatenated with the final buffer reproduce
the initial buffer followed by all arrivals in order (so samples are
consumed in arrival order, never duplicated and removed at most once);
every removed sample is stamped at or before its frame's cutoff; and each
frame passes to the engine either exactly its removed samples (engine
invoked) or nothing (frame skipped or decode failed) - removed samples of
a skipped frame are discarded, not passed. -/
theorem c2_inertial_consumption (evs : List RunEvent) :
    ∀ (st st' : InterfaceState) (recs : List FrameRec),
    runEvents st evs = some (st', recs) →
    joinRemoved recs ++ st'.imuBuf.map imuToPoint =
      (st.imuBuf ++ arrivals evs).map imuToPoint ∧
    (∀ r ∈ recs, ∀ p ∈ r.removed, p.t ≤ r.cut) ∧
    (∀ r ∈ recs, r.passed = r.removed ∨ r.passed = []) := by
  induction evs with
  | nil =>
    intro st st' recs h
    simp only [runEvents, Option.some.injEq] at h
    injection h with hA hB
    subst hA; subst hB
    refine ⟨by simp [joinRemoved, arrivals], ?_, ?_⟩
    · intro r hr; cases hr
    · intro r hr; cases hr
  | cons ev evs ih =>
    intro st st' recs h
    cases ev with
    | imu m =>
      simp only [runEvents] at h
      have hr := ih (handleIMU st m) st' recs h
      refine ⟨?_, hr.2.1, hr.2.2⟩
      rw [hr.1]
      simp [handleIMU, arrivals]
    | frame rgb d eng =>
      simp only [runEvents] at h
      rcases ho : trackRGBDi st rgb d eng with _ | o
      · rw [ho] at h; exact absurd h (by simp)
      · rw [ho] at h
        dsimp only at h
        rcases hrun : runEvents o.st evs with _ | pr
        · rw [hrun] at h; exact absurd h (by simp)
        · rw [hrun] at h
          simp only [Option.map_some', Option.some.injEq] at h
          injection h with hA hB
          subst hA; subst hB
          have hcons := trackRGBDi_consumes st rgb d eng o ho
          have hin := ih o.st pr.1 pr.2 (by rw [hrun])
          refine ⟨?_, ?_, ?_⟩
          · have e1 : joinRemoved
                (⟨min rgb.stamp d.stamp, o.imuRemoved, o.imuToEngine⟩ :: pr.2) =
                o.imuRemoved ++ joinRemoved pr.2 := by simp [joinRemoved]
            rw [e1, List.append_assoc, hin.1, List.map_append, ← List.append_assoc,
              hcons.1, ← List.map_append]
            rfl
          · intro r hr
            rcases List.mem_cons.mp hr with hr | hr
            · subst hr; exact hcons.2.1
            · exact hin.2.1 r hr
          · intro r hr
            rcases List.mem_cons.mp hr with hr | hr
            · subst hr
              rcases hcons.2.2 with ⟨_, hp⟩ | ⟨_, hp⟩
              · exact Or.inl hp
              · exact Or.inr hp
            · exact hin.2.2 r hr

/-- Witness for C2: the demo run (two arrivals, one frame) evaluated, then
the theorem applied to it. -/
theorem c2_inertial_consumption_witness :
    joinRemoved c2Recs ++ c2RunState.imuBuf.map imuToPoint =
      (baseState.imuBuf ++ arrivals demoEvents).map imuToPoint ∧
    (∀ r ∈ c2Recs, ∀ p ∈ r.removed, p.t ≤ r.cut) ∧
    (∀ r ∈ c2Recs, r.passed = r.removed ∨ r.passed = []) :=
  c2_inertial_consumption demoEvents baseState c2RunState c2Recs (by decide)

/-- Every entry of an insertion is the inserted pair or an old entry. -/
theorem mem_kfInsert (m : KFMap) (k : ℕ) (v : KeyFrame) (p : ℕ × KeyFrame)
    (h : p ∈ kfInsert m k v) : p = (k, v) ∨ p ∈ m := by
  induction m with
  | nil => simpa [kfInsert] using h
  | cons e rest ih =>
    obtain ⟨k', v'⟩ := e
    by_cases h1 : k < k'
    · simp only [kfInsert, if_pos h1] at h
      rcases List.mem_cons.mp h with rfl | h
      · exact Or.inl rfl
      · exact Or.inr h
    · by_cases h2 : k = k'
      · simp only [kfInsert, if_neg h1, if_pos h2] at h
        rcases List.mem_cons.mp h with rfl | h
        · exact Or.inl rfl
        · exact Or.inr (List.mem_cons_of_mem _ h)
      · simp only [kfInsert, if_neg h1, if_neg h2] at h
        rcases List.mem_cons.mp h with rfl | h
        · exact Or.inr (List.mem_cons_self _ _)
        · rcases ih h with h | h
          · exact Or.inl h
          · exact Or.inr (List.mem_cons_of_mem _ h)

/-- Insertion preserves the strictly-ascending-keys invariant of the
ordered map. -/
theorem kfInsert_pairwise (m : KFMap) (k : ℕ) (v : KeyFrame)
    (h : List.Pairwise (fun a b : ℕ × KeyFrame => a.1 < b.1) m) :
    List.Pairwise (fun a b : ℕ × KeyFrame => a.1 < b.1) (kfInsert m k v) := by
  induction m with
  | nil => simp [kfInsert]
  | cons e rest ih =>
    obtain ⟨k', v'⟩ := e
    rcases List.pairwise_cons.mp h with ⟨hhead, hrest⟩
    by_cases h1 : k < k'
    · rw [kfInsert, if_pos h1]
      refine List.pairwise_cons.mpr ⟨?_, h⟩
      intro b hb
      rcases List.mem_cons.mp hb with rfl | hb
      · exact h1
      · exact lt_trans h1 (hhead b hb)
    · by_cases h2 : k = k'
      · rw [kfInsert, if_neg h1, if_pos h2]
        subst h2
        exact List.pairwise_cons.mpr ⟨hhead, hrest⟩
      · rw [kfInsert, if_neg h1, if_neg h2]
        refine List.pairwise_cons.mpr ⟨?_, ih hrest⟩
        intro b hb
        rcases mem_kfInsert rest k v b hb with rfl | hb
        · exact Nat.lt_of_le_of_ne (Nat.le_of_not_lt h1) (fun e => h2 e.symm)
        · exact hhead b hb

/-- The inner index-building fold preserves the ascending-keys invariant. -/
theorem kfFold_pairwise (kfl : List KeyFrame) (acc : KFMap)
    (h : List.Pairwise (fun a b : ℕ × KeyFrame => a.1 < b.1) acc) :
    List.Pairwise (fun a b : ℕ × KeyFrame => a.1 < b.1)
      (kfl.foldl (fun a kf => kfInsert a kf.mnId kf) acc) := by
  induction kfl generalizing acc with
  | nil => exact h
  | cons kf rest ih => exact ih _ (kfInsert_pairwise _ _ _ h)

/-- The historical index has strictly ascending keys: it is an
identifier-keyed ordered map. -/
theorem makeKFIdPair_pairwise (l : List OrbMap) :
    List.Pairwise (fun a b : ℕ × KeyFrame => a.1 < b.1) (makeKFIdPair l) := by
  suffices hgen : ∀ acc, List.Pairwise (fun a b : ℕ × KeyFrame => a.1 < b.1) acc →
      List.Pairwise (fun a b : ℕ × KeyFrame => a.1 < b.1)
        (l.foldl (fun acc2 pMap =>
          pMap.keyframes.foldl (fun a kf => kfInsert a kf.mnId kf) acc2) acc) by
    exact hgen [] (by simp)
  induction l with
  | nil => intro acc h; exact h
  | cons M rest ih => intro acc h; exact ih _ (kfFold_pairwise _ _ h)

/-- The inner fold keys every entry by its keyframe's identifier. -/
theorem kfFold_keyed (kfl : List KeyFrame) (acc : KFMap)
    (h : ∀ p ∈ acc, (p : ℕ × KeyFrame).2.mnId = p.1) :
    ∀ p ∈ kfl.foldl (fun a kf => kfInsert a kf.mnId kf) acc, (p : ℕ × KeyFrame).2.mnId = p.1 := by
  induction kfl generalizing acc with
  | nil => exact h
  | cons kf rest ih =>
    refine ih _ ?_
    intro p hp
    rcases mem_kfInsert acc kf.mnId kf p hp with rfl | hp
    · rfl
    · exact h p hp

/-- Every entry of the historical index is keyed by its keyframe's
identifier. -/
theorem makeKFIdPair_keyed (l : List OrbMap) :
    ∀ p ∈ makeKFIdPair l, (p : ℕ × KeyFrame).2.mnId = p.1 := by
  suffices hgen : ∀ acc, (∀ p ∈ acc, (p : ℕ × KeyFrame).2.mnId = p.1) →
      ∀ p ∈ l.foldl (fun acc2 pMap =>
          pMap.keyframes.foldl (fun a kf => kfInsert a kf.mnId kf) acc2) acc,
        (p : ℕ × KeyFrame).2.mnId = p.1 by
    exact hgen [] (by intro p hp; simp at hp)
  induction l with
  | nil => intro acc h; exact h
  | cons M rest ih => intro acc h; exact ih _ (kfFold_keyed _ _ h)

/-- The full-graph loop emits one identifier and one pose per index entry,
the identifiers being the entries' keyframe identifiers in index order. -/
theorem poseGraphAllLoop_ids (gframe : String) (t : RefTable) (m : KFMap) :
    (poseGraphAllLoop gframe t m).2.1 = m.map (fun p => p.2.mnId) ∧
    (poseGraphAllLoop gframe t m).1.length = m.length := by
  induction m generalizing t with
  | nil => exact ⟨rfl, rfl⟩
  | cons e rest ih =>
    simp only [poseGraphAllLoop, List.map_cons]
    exact ⟨by rw [(ih _).1], by simp [(ih _).2]⟩

/-- Claim C10: in the all-keyframes scope the emitted identifier sequence
is strictly ascending (hence every atlas-wide identifier appears at most
once), because the historical index is an identifier-keyed ordered map,
and the pose sequence is parallel to it. -/
theorem c10_posegraph_ascending_ids (st : InterfaceState) (l : List OrbMap)
    (h : st.allKFs = makeKFIdPair l) :
    List.Pairwise (fun a b : ℕ => a < b) (getOptimizedPoseGraph st false).1.posesId ∧
    (getOptimizedPoseGraph st false).1.poses.length =
      (getOptimizedPoseGraph st false).1.posesId.length := by
  have hids := poseGraphAllLoop_ids st.globalFrame st.mapReferencePoses st.allKFs
  constructor
  · show List.Pairwise (fun a b : ℕ => a < b)
      (poseGraphAllLoop st.globalFrame st.mapReferencePoses st.allKFs).2.1
    rw [hids.1, h]
    have hmapeq : (makeKFIdPair l).map (fun p => p.2.mnId) =
        (makeKFIdPair l).map Prod.fst :=
      List.map_congr_left (fun p hp => makeKFIdPair_keyed l p hp)
    rw [hmapeq]
    exact List.Pairwise.map _ (fun a b hab => hab) (makeKFIdPair_pairwise l)
  · show (poseGraphAllLoop st.globalFrame st.mapReferencePoses st.allKFs).1.length =
      (poseGraphAllLoop st.globalFrame st.mapReferencePoses st.allKFs).2.1.length
    rw [hids.1, hids.2, List.length_map]

/-- Witness for C10: a forest listed child-first still yields strictly
ascending emitted identifiers. -/
theorem c10_posegraph_ascending_ids_witness :
    List.Pairwise (fun a b : ℕ => a < b)
      (getOptimizedPoseGraph c10State false).1.posesId ∧
    (getOptimizedPoseGraph c10State false).1.poses.length =
      (getOptimizedPoseGraph c10State false).1.posesId.length :=
  c10_posegraph_ascending_ids c10State c10Maps rfl

/-- Looking up the key just written yields the written value. -/
theorem refFind?_refSet_self (t : RefTable) (k : ℕ) (v : Affine3) :
    refFind? (refSet t k v) k = some v := by
  induction t with
  | nil => simp [refSet, refFind?]
  | cons e rest ih =>
    obtain ⟨k', v'⟩ := e
    by_cases h : k = k'
    · simp [refSet, refFind?, h]
    · simp [refSet, refFind?, h, ih]

/-- Writing one key leaves every other key's lookup unchanged. -/
theorem refFind?_refSet_ne (t : RefTable) (k k' : ℕ) (v : Affine3) (h : k' ≠ k) :
    refFind? (refSet t k v) k' = refFind? t k' := by
  induction t with
  | nil => simp [refSet, refFind?, h]
  | cons e rest ih =>
    obtain ⟨k0, v0⟩ := e
    by_cases h2 : k = k0
    · subst h2; simp [refSet, refFind?, h]
    · by_cases h3 : k' = k0 <;> simp [refSet, refFind?, h2, h3, ih]

/-- A successful ordered-map lookup exhibits a member entry. -/
theorem kfLookup_mem (m : KFMap) (k : ℕ) (v : KeyFrame) (h : kfLookup m k = some v) :
    (k, v) ∈ m := by
  induction m with
  | nil => simp [kfLookup] at h
  | cons e rest ih =>
    obtain ⟨k', v'⟩ := e
    by_cases h1 : k = k'
    · subst h1
      simp only [kfLookup, if_true, eq_self_iff_true, Option.some.injEq] at h
      subst h
      exact List.mem_cons_self _ _
    · simp only [kfLookup, if_neg h1] at h
      exact List.mem_cons_of_mem _ (ih h)

/-- Entries produced by the inner index fold come from the accumulator or
from the folded keyframes. -/
theorem kfFold_mem (kfl : List KeyFrame) (acc : KFMap) (p : ℕ × KeyFrame)
    (h : p ∈ kfl.foldl (fun a kf => kfInsert a kf.mnId kf) acc) :
    p ∈ acc ∨ ∃ kf ∈ kfl, p = (kf.mnId, kf) := by
  induction kfl generalizing acc with
  | nil => exact Or.inl h
  | cons kf rest ih =>
    rcases ih _ h with h | ⟨kf', hkf', rfl⟩
    · rcases mem_kfInsert acc kf.mnId kf p h with rfl | h
      · exact Or.inr ⟨kf, List.mem_cons_self _ _, rfl⟩
      · exact Or.inl h
    · exact Or.inr ⟨kf', List.mem_cons_of_mem _ hkf', rfl⟩

/-- Every entry of the historical index is some map's keyframe, keyed by
its identifier. -/
theorem makeKFIdPair_mem (l : List OrbMap) (p : ℕ × KeyFrame) (h : p ∈ makeKFIdPair l) :
    ∃ M ∈ l, ∃ kf ∈ M.keyframes, p = (kf.mnId, kf) := by
  suffices hgen : ∀ acc, p ∈ l.foldl (fun acc2 pMap =>
      pMap.keyframes.foldl (fun a kf => kfInsert a kf.mnId kf) acc2) acc →
      p ∈ acc ∨ ∃ M ∈ l, ∃ kf ∈ M.keyframes, p = (kf.mnId, kf) by
    rcases hgen [] h with h | h
    · simp at h
    · exact h
  clear h
  induction l with
  | nil => intro acc h; exact Or.inl h
  | cons M rest ih =>
    intro acc h
    have h' : p ∈ List.foldl
        (fun acc2 pMap => List.foldl (fun a kf => kfInsert a kf.mnId kf) acc2 pMap.keyframes)
        (List.foldl (fun a kf => kfInsert a kf.mnId kf) acc M.keyframes) rest := h
    rcases ih _ h' with h | ⟨M', hM', hkf⟩
    · rcases kfFold_mem M.keyframes acc p h with h | ⟨kf, hkf, rfl⟩
      · exact Or.inl h
      · exact Or.inr ⟨M, List.mem_cons_self _ _, kf, hkf, rfl⟩
    · exact Or.inr ⟨M', List.mem_cons_of_mem _ hM', hkf⟩

/-- After writing the head map's entry, the table keys stay disjoint from
the remaining maps' identifiers. -/
theorem calcStep_disj (T : RefTable) (M : OrbMap) (rest : List OrbMap) (e : Affine3)
    (hdisj : ∀ k : ℕ, (refFind? T k).isSome = true → k ∉ (M :: rest).map OrbMap.mapId)
    (hndM : M.mapId ∉ rest.map OrbMap.mapId) :
    ∀ k : ℕ, (refFind? (refSet T M.mapId e) k).isSome = true →
      k ∉ rest.map OrbMap.mapId := by
  intro k hk
  by_cases hkM : k = M.mapId
  · subst hkM; exact hndM
  · rw [refFind?_refSet_ne T M.mapId k e hkM] at hk
    intro hmem
    exact hdisj k hk (List.mem_cons_of_mem _ hmem)

/-- After writing the head map's entry, every remaining map's parent
owner is still available: already in the table (possibly as the entry
just written) or ahead in the remaining list. -/
theorem calcStep_ready (kfs : KFMap) (T : RefTable) (M : OrbMap) (rest : List OrbMap)
    (e : Affine3)
    (hready : ∀ M'' ∈ M :: rest, M''.initKFid ≠ 0 →
      ∃ kf, kfLookup kfs (M''.initKFid - 1) = some kf ∧
        ((refFind? T kf.mapId).isSome = true ∨
         ∃ M', M' ∈ M :: rest ∧ M'.mapId = kf.mapId ∧ M'.initKFid < M''.initKFid)) :
    ∀ M'' ∈ rest, M''.initKFid ≠ 0 →
      ∃ kf, kfLookup kfs (M''.initKFid - 1) = some kf ∧
        ((refFind? (refSet T M.mapId e) kf.mapId).isSome = true ∨
         ∃ M', M' ∈ rest ∧ M'.mapId = kf.mapId ∧ M'.initKFid < M''.initKFid) := by
  intro M'' hM'' hne
  obtain ⟨kf, hkf, hdis⟩ := hready M'' (List.mem_cons_of_mem _ hM'') hne
  refine ⟨kf, hkf, ?_⟩
  rcases hdis with hs | ⟨M', hM', hid, hlt⟩
  · left
    by_cases hkM : kf.mapId = M.mapId
    · rw [hkM, refFind?_refSet_self]; rfl
    · rw [refFind?_refSet_ne T M.mapId kf.mapId e hkM]; exact hs
  · rcases List.mem_cons.mp hM' with rfl | hM'
    · left
      rw [← hid, refFind?_refSet_self]; rfl
    · exact Or.inr ⟨M', hM', hid, hlt⟩

/-- Correctness of the resolution loop over a sorted tail of maps: it
completes, preserves existing entries, gives every root map the anchored
entry and every non-root map its parent-owner's entry composed with the
parent keyframe's pose. -/
theorem calcLoop_spec (kfs : KFMap) (rx ry : ℚ) :
    ∀ (l : List OrbMap) (T : RefTable),
    List.Pairwise initLE l →
    (l.map OrbMap.mapId).Nodup →
    (∀ k : ℕ, (refFind? T k).isSome = true → k ∉ l.map OrbMap.mapId) →
    (∀ M ∈ l, M.initKFid ≠ 0 →
      ∃ kf, kfLookup kfs (M.initKFid - 1) = some kf ∧
        ((refFind? T kf.mapId).isSome = true ∨
         ∃ M', M' ∈ l ∧ M'.mapId = kf.mapId ∧ M'.initKFid < M.initKFid)) →
    ∃ T', calcLoop kfs rx ry l T = some T' ∧
      (∀ (k : ℕ) (v : Affine3), refFind? T k = some v → refFind? T' k = some v) ∧
      (∀ M ∈ l, M.initKFid = 0 →
        refFind? T' M.mapId = some ((worldOffset rx ry).comp M.originKF.pose)) ∧
      (∀ M ∈ l, M.initKFid ≠ 0 →
        ∃ kf, kfLookup kfs (M.initKFid - 1) = some kf ∧
        ∃ ov, refFind? T' kf.mapId = some ov ∧
          refFind? T' M.mapId = some (ov.comp kf.pose)) := by
  intro l
  induction l with
  | nil =>
    intro T _ _ _ _
    refine ⟨T, rfl, fun _ _ h => h, ?_, ?_⟩ <;>
      exact fun M hM => absurd hM (List.not_mem_nil M)
  | cons M rest ih =>
    intro T hpair hnd hdisj hready
    rcases List.pairwise_cons.mp hpair with ⟨hheadLE, hpair'⟩
    have hndc : M.mapId ∉ rest.map OrbMap.mapId ∧ (rest.map OrbMap.mapId).Nodup := by
      have h' := hnd
      simp only [List.map_cons, List.nodup_cons] at h'
      exact h'
    have hndM : M.mapId ∉ rest.map OrbMap.mapId := hndc.1
    have hnd' : (rest.map OrbMap.mapId).Nodup := hndc.2
    have hMhead : M.mapId ∈ (M :: rest).map OrbMap.mapId := by simp
    by_cases hM0 : M.initKFid = 0
    · obtain ⟨T', hT'eq, hpres, hroot, hnonroot⟩ :=
        ih (refSet T M.mapId ((worldOffset rx ry).comp M.originKF.pose)) hpair' hnd'
          (calcStep_disj T M rest _ hdisj hndM)
          (calcStep_ready kfs T M rest _ hready)
      refine ⟨T', ?_, ?_, ?_, ?_⟩
      · simp only [calcLoop, if_pos hM0]
        exact hT'eq
      · intro k v hk
        have hkne : k ≠ M.mapId := by
          intro hkM
          exact hdisj k (by rw [hk]; rfl) (hkM ▸ hMhead)
        exact hpres k v (by rw [refFind?_refSet_ne T M.mapId k _ hkne]; exact hk)
      · intro M'' hM'' h0
        rcases List.mem_cons.mp hM'' with rfl | hM''
        · exact hpres _ _ (refFind?_refSet_self T M''.mapId _)
        · exact hroot M'' hM'' h0
      · intro M'' hM'' hne
        rcases List.mem_cons.mp hM'' with rfl | hM''
        · exact absurd hM0 hne
        · exact hnonroot M'' hM'' hne
    · obtain ⟨kf, hkf, hdis⟩ := hready M (List.mem_cons_self _ _) hM0
      have hov : (refFind? T kf.mapId).isSome = true := by
        rcases hdis with hs | ⟨M', hM', hid, hlt⟩
        · exact hs
        · rcases List.mem_cons.mp hM' with rfl | hM'
          · exact absurd hlt (lt_irrefl _)
          · exact absurd hlt (not_lt.mpr (hheadLE M' hM'))
      obtain ⟨ov, hov'⟩ := Option.isSome_iff_exists.mp hov
      have hget : refGet T kf.mapId = (ov, T) := by rw [refGet, hov']
      have hkfne : kf.mapId ≠ M.mapId := by
        intro heq
        exact hdisj kf.mapId hov (heq ▸ hMhead)
      obtain ⟨T', hT'eq, hpres, hroot, hnonroot⟩ :=
        ih (refSet T M.mapId (transformPoseWithReference ov kf.pose)) hpair' hnd'
          (calcStep_disj T M rest _ hdisj hndM)
          (calcStep_ready kfs T M rest _ hready)
      refine ⟨T', ?_, ?_, ?_, ?_⟩
      · simp only [calcLoop, if_neg hM0, hkf, hget]
        exact hT'eq
      · intro k v hk
        have hkne : k ≠ M.mapId := by
          intro hkM
          exact hdisj k (by rw [hk]; rfl) (hkM ▸ hMhead)
        exact hpres k v (by rw [refFind?_refSet_ne T M.mapId k _ hkne]; exact hk)
      · intro M'' hM'' h0
        rcases List.mem_cons.mp hM'' with rfl | hM''
        · exact absurd h0 hM0
        · exact hroot M'' hM'' h0
      · intro M'' hM'' hne
        rcases List.mem_cons.mp hM'' with rfl | hM''
        · refine ⟨kf, hkf, ov, ?_, ?_⟩
          · exact hpres _ _ (by
              rw [refFind?_refSet_ne T M''.mapId kf.mapId _ hkfne]; exact hov')
          · exact hpres _ _ (refFind?_refSet_self T M''.mapId _)
        · exact hnonroot M'' hM'' hne

/-- Claim C4: on a consistent forest (distinct map identifiers, keyframes
owned by the maps listing them, keyframe identifiers at or above their
map's initial one) in which every non-root map's parent keyframe is
present in the global index, the resolution pass completes and assigns
the root map the fixed world-origin offset composed with its origin
keyframe's pose, and every other map the resolved reference pose of the
map owning keyframe `initKFid - 1` composed with that keyframe's local
pose. -/
theorem c4_reference_resolution (rx ry : ℚ) (atlas : Atlas)
    (hids : (atlas.maps.map OrbMap.mapId).Nodup)
    (hown : ∀ M ∈ atlas.maps, ∀ kf ∈ M.keyframes, kf.mapId = M.mapId)
    (hinit : ∀ M ∈ atlas.maps, ∀ kf ∈ M.keyframes, M.initKFid ≤ kf.mnId)
    (hparent : ∀ M ∈ atlas.maps, M.initKFid ≠ 0 →
      (kfLookup (makeKFIdPair (sortByInitKFid atlas.maps)) (M.initKFid - 1)).isSome = true) :
    ∃ table kfs, calculateReferencePoses rx ry atlas = some (table, kfs) ∧
      kfs = makeKFIdPair (sortByInitKFid atlas.maps) ∧
      (∀ M ∈ atlas.maps, M.initKFid = 0 →
        refFind? table M.mapId = some ((worldOffset rx ry).comp M.originKF.pose)) ∧
      (∀ M ∈ atlas.maps, M.initKFid ≠ 0 →
        ∃ kf, kfLookup kfs (M.initKFid - 1) = some kf ∧
        ∃ ov, refFind? table kf.mapId = some ov ∧
          refFind? table M.mapId = some (ov.comp kf.pose)) := by
  have hperm : (sortByInitKFid atlas.maps).Perm atlas.maps :=
    List.perm_insertionSort initLE atlas.maps
  have hmem : ∀ M : OrbMap, M ∈ sortByInitKFid atlas.maps ↔ M ∈ atlas.maps :=
    fun M => hperm.mem_iff
  have hpair : List.Pairwise initLE (sortByInitKFid atlas.maps) :=
    List.sorted_insertionSort initLE atlas.maps
  have hnd : ((sortByInitKFid atlas.maps).map OrbMap.mapId).Nodup :=
    (hperm.map OrbMap.mapId).nodup_iff.mpr hids
  have hready : ∀ M ∈ sortByInitKFid atlas.maps, M.initKFid ≠ 0 →
      ∃ kf, kfLookup (makeKFIdPair (sortByInitKFid atlas.maps)) (M.initKFid - 1) = some kf ∧
        ((refFind? ([] : RefTable) kf.mapId).isSome = true ∨
         ∃ M', M' ∈ sortByInitKFid atlas.maps ∧ M'.mapId = kf.mapId ∧
           M'.initKFid < M.initKFid) := by
    intro M hM hne
    obtain ⟨kf, hkf⟩ :=
      Option.isSome_iff_exists.mp (hparent M ((hmem M).mp hM) hne)
    refine ⟨kf, hkf, Or.inr ?_⟩
    obtain ⟨M', hM', kf', hkf', heq⟩ :=
      makeKFIdPair_mem (sortByInitKFid atlas.maps) _
        (kfLookup_mem (makeKFIdPair (sortByInitKFid atlas.maps)) _ _ hkf)
    have h1 : M.initKFid - 1 = kf'.mnId := congrArg Prod.fst heq
    have h2 : kf = kf' := congrArg Prod.snd heq
    subst h2
    refine ⟨M', hM', (hown M' ((hmem M').mp hM') kf hkf').symm ▸ rfl, ?_⟩
    have hle : M'.initKFid ≤ kf.mnId := hinit M' ((hmem M').mp hM') kf hkf'
    have hlt : kf.mnId < M.initKFid := by
      rw [← h1]
      exact Nat.sub_lt (Nat.pos_of_ne_zero hne) Nat.one_pos
    exact Nat.lt_of_le_of_lt hle hlt
  obtain ⟨T', hT'eq, _, hroot, hnonroot⟩ :=
    calcLoop_spec (makeKFIdPair (sortByInitKFid atlas.maps)) rx ry
      (sortByInitKFid atlas.maps) [] hpair hnd
      (by intro k hk; simp [refFind?] at hk) hready
  refine ⟨T', makeKFIdPair (sortByInitKFid atlas.maps), ?_, rfl, ?_, ?_⟩
  · show (calcLoop (makeKFIdPair (sortByInitKFid atlas.maps)) rx ry
      (sortByInitKFid atlas.maps) []).map
        (fun t => (t, makeKFIdPair (sortByInitKFid atlas.maps))) =
      some (T', makeKFIdPair (sortByInitKFid atlas.maps))
    rw [hT'eq]
    rfl
  · intro M hM h0
    exact hroot M ((hmem M).mpr hM) h0
  · intro M hM hne
    exact hnonroot M ((hmem M).mpr hM) hne

/-- Witness for C4: the spec's chaining test - root map A holding
keyframes 0 and 4 and map B spawned at keyframe 5 - satisfies all
hypotheses and so resolves as stated. -/
theorem c4_reference_resolution_witness :
    ∃ table kfs, calculateReferencePoses 0 0 atlasAB = some (table, kfs) ∧
      kfs = makeKFIdPair (sortByInitKFid atlasAB.maps) ∧
      (∀ M ∈ atlasAB.maps, M.initKFid = 0 →
        refFind? table M.mapId = some ((worldOffset 0 0).comp M.originKF.pose)) ∧
      (∀ M ∈ atlasAB.maps, M.initKFid ≠ 0 →
        ∃ kf, kfLookup kfs (M.initKFid - 1) = some kf ∧
        ∃ ov, refFind? table kf.mapId = some ov ∧
          refFind? table M.mapId = some (ov.comp kf.pose)) :=
  c4_reference_resolution 0 0 atlasAB (by decide) (by decide) (by decide) (by decide)

end OrbWrapper
